import Mathlib

/-!
Verification of the entity-to-dictionary serialization layer of
`db/models.py` (group-assignment-tool): the `Model.get_dict` base
operation with field exclusion, and the per-record-kind overrides for
`User`, `Employee`, `App`, `Role`, `Group`, `EmployeeToRole` and
`RoleToGroup`.

Embedding conventions:
* A record is a structure holding the attributes its constructor sets
  (`self.x = ...`), plus an `Option Int` primary-key `id` that is unset
  (`none`) until the record is persisted, and the relationship
  collections (`roles`, `groups`, object references) that the ORM layer
  maintains.
* A Python dictionary is an insertion-ordered association list
  `List (String × Value)`; `dict(self.__dict__)` is the `attrs`
  projection of a record, listing attributes in assignment order.
* `list.append` is modelled by `++ [x]`; `dict.update` by `dictUpdate`
  (replace the entry if the key is present, else append).
* `App.get_dict` mutates its `excludes` argument in place
  (`excludes.append('token')`), so its embedding returns the updated
  exclusion list alongside the dictionary.
-/

namespace GroupAssignmentTool

/-- The model for the group table: `Group.__init__` sets `name`,
`app_group_id`, `app_id`; `id` is the `group_id` column. -/
structure GroupRec where
  name : String
  app_group_id : String
  app_id : String
  id : Option Int
deriving DecidableEq, Repr

/-- The model for the role table: `Role.__init__` sets `name`,
`description`; `id` is the `role_id` column; `groups` is the
`association_proxy` collection of related `Group` records. -/
structure RoleRec where
  name : String
  description : String
  id : Option Int
  groups : List GroupRec
deriving DecidableEq, Repr

/-- The model for the employee table: `Employee.__init__` sets `email`,
`first_name`, `last_name`, `slack_id`; `id` is the `employee_id` column;
`roles` is the `association_proxy` collection of related `Role` records. -/
structure EmployeeRec where
  email : String
  first_name : String
  last_name : String
  slack_id : String
  id : Option Int
  roles : List RoleRec
deriving DecidableEq, Repr

/-- The model for the user table: `User.__init__` sets `email`,
`first_name`, `last_name`, `username`, `password`, `is_admin`. -/
structure UserRec where
  email : String
  first_name : String
  last_name : String
  username : String
  password : String
  is_admin : Int
  id : Option Int
deriving DecidableEq, Repr

/-- The model for the app table: `App.__init__` sets `name`, `token`. -/
structure AppRec where
  name : String
  token : String
  id : Option Int
deriving DecidableEq, Repr

/-- The model for the employee_role association table:
`EmployeeToRole.__init__` sets `self.employee` then `self.role`
(object references, `None` by default). -/
structure EmployeeToRoleRec where
  employee : Option EmployeeRec
  role : Option RoleRec
deriving DecidableEq, Repr

/-- The model for the role_group association table:
`RoleToGroup.__init__` sets `self.role` then `self.group`. -/
structure RoleToGroupRec where
  role : Option RoleRec
  group : Option GroupRec
deriving DecidableEq, Repr

/-- A Python value stored in a record attribute dictionary: strings,
integers, `None`, ORM object references, or a list of dictionaries
(as produced by the `roles` / `groups` relationship expansion). -/
inductive Value where
  | vStr (s : String)
  | vInt (n : Int)
  | vNone
  | vEmployee (e : EmployeeRec)
  | vRole (r : RoleRec)
  | vGroup (g : GroupRec)
  | vDictList (ds : List (List (String × Value)))

/-- A Python dictionary: an insertion-ordered association list. -/
abbrev PyDict := List (String × Value)

/-- The keys of a dictionary, in order. -/
def keysOf (d : PyDict) : List String := d.map Prod.fst

/-- `d[k]`-style lookup: the value of the first entry with key `k`. -/
def getVal (d : PyDict) (k : String) : Option Value :=
  (d.find? (fun p => decide (p.1 = k))).map Prod.snd

/-- Python `dict.update([(k, v)])`: replace the entry if `k` is already a
key, otherwise append `(k, v)` at the end. -/
def dictUpdate (d : PyDict) (k : String) (v : Value) : PyDict :=
  if k ∈ keysOf d then d.map (fun p => if p.1 = k then (k, v) else p)
  else d ++ [(k, v)]

/-- Modelled from the spec: `db.helpers.filter_dictionary` (imported by
`db/models.py` but its source is not under src/). Per the spec's base
behavior, it takes the copied attribute mapping and removes every key
present in `excludes`, leaving the rest in order. -/
def filter_dictionary (d : PyDict) (excludes : List String) : PyDict :=
  d.filter (fun p => decide (p.1 ∉ excludes))

/-- `Model.get_dict`: `filter_dictionary(dict(self.__dict__), excludes)`,
taking the record's already-copied attribute dictionary as input. -/
def Model.get_dict (d : PyDict) (excludes : List String) : PyDict :=
  filter_dictionary d excludes

/-- The `id` entry of `self.__dict__`, present only once the primary key
has been set by the persistence layer. -/
def idPart (id : Option Int) : PyDict :=
  match id with
  | some i => [("id", Value.vInt i)]
  | none => []

/-- `dict(group.__dict__)`: attributes in `Group.__init__` assignment
order, then `id` if set. -/
def GroupRec.attrs (g : GroupRec) : PyDict :=
  [("name", Value.vStr g.name), ("app_group_id", Value.vStr g.app_group_id),
   ("app_id", Value.vStr g.app_id)] ++ idPart g.id

/-- `dict(role.__dict__)`: attributes in `Role.__init__` assignment
order, then `id` if set. The `groups` proxy collection is not an entry
of `__dict__`. -/
def RoleRec.attrs (r : RoleRec) : PyDict :=
  [("name", Value.vStr r.name), ("description", Value.vStr r.description)]
    ++ idPart r.id

/-- `dict(employee.__dict__)`: attributes in `Employee.__init__`
assignment order, then `id` if set. The `roles` proxy collection is not
an entry of `__dict__`. -/
def EmployeeRec.attrs (e : EmployeeRec) : PyDict :=
  [("email", Value.vStr e.email), ("first_name", Value.vStr e.first_name),
   ("last_name", Value.vStr e.last_name), ("slack_id", Value.vStr e.slack_id)]
    ++ idPart e.id

/-- `dict(user.__dict__)`: attributes in `User.__init__` assignment
order, then `id` if set. -/
def UserRec.attrs (u : UserRec) : PyDict :=
  [("email", Value.vStr u.email), ("first_name", Value.vStr u.first_name),
   ("last_name", Value.vStr u.last_name), ("username", Value.vStr u.username),
   ("password", Value.vStr u.password), ("is_admin", Value.vInt u.is_admin)]
    ++ idPart u.id

/-- `dict(app.__dict__)`: attributes in `App.__init__` assignment order,
then `id` if set. -/
def AppRec.attrs (a : AppRec) : PyDict :=
  [("name", Value.vStr a.name), ("token", Value.vStr a.token)] ++ idPart a.id

/-- A `None`-or-reference attribute value. -/
def optValue (f : α → Value) : Option α → Value
  | some x => f x
  | none => Value.vNone

/-- `dict(employee_to_role.__dict__)`: `EmployeeToRole.__init__` assigns
`self.employee` then `self.role`. -/
def EmployeeToRoleRec.attrs (x : EmployeeToRoleRec) : PyDict :=
  [("employee", optValue Value.vEmployee x.employee),
   ("role", optValue Value.vRole x.role)]

/-- `dict(role_to_group.__dict__)`: `RoleToGroup.__init__` assigns
`self.role` then `self.group`. -/
def RoleToGroupRec.attrs (x : RoleToGroupRec) : PyDict :=
  [("role", optValue Value.vRole x.role),
   ("group", optValue Value.vGroup x.group)]

/-- `Group.get_dict`: inherited from `Model` unchanged. -/
def GroupRec.get_dict (g : GroupRec) (excludes : List String) : PyDict :=
  Model.get_dict g.attrs excludes

/-- `Role.get_dict`: the base dictionary, then — if `'groups'` is not in
`excludes` — `role_dict.update([('groups', groups)])` where `groups` is
each related group serialized with the default (empty) exclusion. -/
def RoleRec.get_dict (r : RoleRec) (excludes : List String) : PyDict :=
  let role_dict := Model.get_dict r.attrs excludes
  if "groups" ∉ excludes then
    dictUpdate role_dict "groups"
      (Value.vDictList (r.groups.map (fun g => g.get_dict [])))
  else role_dict

/-- `Employee.get_dict`: the base dictionary, then — if `'roles'` is not
in `excludes` — `employee_dict.update([('roles', roles)])` where `roles`
is each related role serialized with the default (empty) exclusion. -/
def EmployeeRec.get_dict (e : EmployeeRec) (excludes : List String) : PyDict :=
  let employee_dict := Model.get_dict e.attrs excludes
  if "roles" ∉ excludes then
    dictUpdate employee_dict "roles"
      (Value.vDictList (e.roles.map (fun r => r.get_dict [])))
  else employee_dict

/-- `App.get_dict`: `excludes.append('token')` mutates the caller's list
in place, then delegates to the base operation with the grown list. The
embedding returns the result dictionary together with the caller's
exclusion list as it stands after the call. -/
def AppRec.get_dict (a : AppRec) (excludes : List String) :
    PyDict × List String :=
  let ex := excludes ++ ["token"]
  (Model.get_dict a.attrs ex, ex)

/-- `User.get_dict`: delegates to the base operation unchanged
(`excludes` has no default for this record kind). -/
def UserRec.get_dict (u : UserRec) (excludes : List String) : PyDict :=
  Model.get_dict u.attrs excludes

/-- `EmployeeToRole.get_dict`: inherited from `Model` unchanged. -/
def EmployeeToRoleRec.get_dict (x : EmployeeToRoleRec)
    (excludes : List String) : PyDict :=
  Model.get_dict x.attrs excludes

/-- `RoleToGroup.get_dict`: inherited from `Model` unchanged. -/
def RoleToGroupRec.get_dict (x : RoleToGroupRec)
    (excludes : List String) : PyDict :=
  Model.get_dict x.attrs excludes

/-- A record of any of the seven record kinds. -/
inductive Record where
  | user (u : UserRec)
  | employee (e : EmployeeRec)
  | app (a : AppRec)
  | role (r : RoleRec)
  | group (g : GroupRec)
  | employeeToRole (x : EmployeeToRoleRec)
  | roleToGroup (x : RoleToGroupRec)

/-- `get_dict` dispatched over the record kinds (the dictionary the
caller receives; for `App` this is the first component of the pair). -/
def Record.to_dict : Record → List String → PyDict
  | .user u, ex => u.get_dict ex
  | .employee e, ex => e.get_dict ex
  | .app a, ex => (a.get_dict ex).1
  | .role r, ex => r.get_dict ex
  | .group g, ex => g.get_dict ex
  | .employeeToRole x, ex => x.get_dict ex
  | .roleToGroup x, ex => x.get_dict ex

/-- The attribute names of a record: the keys of `__dict__` plus the
relationship proxy collections (`roles` for Employee, `groups` for
Role), which are attributes of the record even though they are not
entries of `__dict__`. -/
def Record.attrNames : Record → List String
  | .user u => keysOf u.attrs
  | .employee e => keysOf e.attrs ++ ["roles"]
  | .app a => keysOf a.attrs
  | .role r => keysOf r.attrs ++ ["groups"]
  | .group g => keysOf g.attrs
  | .employeeToRole x => keysOf x.attrs
  | .roleToGroup x => keysOf x.attrs

/-- `get_dict` with the record threaded through the call: every method
body in `db/models.py` only reads `self` (no statement assigns to a
`self` attribute), so the record component passes through unchanged. -/
def Record.get_dict_st (R : Record) (excludes : List String) :
    PyDict × Record :=
  (R.to_dict excludes, R)

/-- Allocation view of `Model.get_dict` on a heap of dictionary objects
(addresses are indices): `dict(self.__dict__)` copies the record's
attribute dictionary stored at `addr`, `filter_dictionary` filters the
copy, and the result is a fresh object appended to the heap. -/
def get_dict_alloc (heap : List PyDict) (addr : Nat)
    (excludes : List String) : List PyDict × Nat :=
  (heap ++ [filter_dictionary (heap.getD addr []) excludes], heap.length)

/-- In-place mutation of the dictionary object at `addr` (adding,
removing or reassigning entries of that mapping). -/
def heapWrite (heap : List PyDict) (addr : Nat) (d : PyDict) :
    List PyDict :=
  heap.set addr d

theorem mem_filter_dictionary {d : PyDict} {E : List String}
    {p : String × Value} :
    p ∈ filter_dictionary d E ↔ p ∈ d ∧ p.1 ∉ E := by
  simp [filter_dictionary, List.mem_filter]

theorem getVal_eq_none_iff {d : PyDict} {k : String} :
    getVal d k = none ↔ ∀ p ∈ d, p.1 ≠ k := by
  simp [getVal, List.find?_eq_none]

theorem getVal_filter_of_mem (d : PyDict) (E : List String) (k : String)
    (h : k ∈ E) : getVal (filter_dictionary d E) k = none := by
  rw [getVal_eq_none_iff]
  intro p hp
  rcases mem_filter_dictionary.mp hp with ⟨-, hnot⟩
  intro hk
  exact hnot (hk ▸ h)

theorem fst_mem_keysOf {d : PyDict} {p : String × Value} (h : p ∈ d) :
    p.1 ∈ keysOf d :=
  List.mem_map.mpr ⟨p, h, rfl⟩

theorem keysOf_filter_subset {d : PyDict} {E : List String} {k : String}
    (h : k ∈ keysOf (filter_dictionary d E)) : k ∈ keysOf d := by
  rcases List.mem_map.mp h with ⟨p, hp, rfl⟩
  exact fst_mem_keysOf (mem_filter_dictionary.mp hp).1

theorem dictUpdate_of_not_mem {d : PyDict} {k : String} {v : Value}
    (h : k ∉ keysOf d) : dictUpdate d k v = d ++ [(k, v)] := by
  simp [dictUpdate, h]

theorem getVal_cons {p : String × Value} {d : PyDict} {k : String} :
    getVal (p :: d) k = if p.1 = k then some p.2 else getVal d k := by
  by_cases h : p.1 = k <;> simp [getVal, List.find?, h]

theorem getVal_append_last {d : PyDict} {k : String} {v : Value}
    (h : k ∉ keysOf d) : getVal (d ++ [(k, v)]) k = some v := by
  induction d with
  | nil => simp [getVal]
  | cons p d ih =>
    have hk : p.1 ≠ k := fun he =>
      h (he ▸ fst_mem_keysOf (List.mem_cons_self p d))
    have hd : k ∉ keysOf d := fun hm => h (List.mem_map.mp hm |>.elim
      (fun q hq => List.mem_map.mpr ⟨q, List.mem_cons_of_mem p hq.1, hq.2⟩))
    rw [List.cons_append, getVal_cons, if_neg hk]
    exact ih hd

theorem filter_dictionary_congr {d : PyDict} {E₁ E₂ : List String}
    (h : ∀ p ∈ d, (p.1 ∈ E₁ ↔ p.1 ∈ E₂)) :
    filter_dictionary d E₁ = filter_dictionary d E₂ := by
  unfold filter_dictionary
  apply List.filter_congr
  intro p hp
  simp [h p hp]

theorem filter_dictionary_cons {k : String} {v : Value} {d : PyDict}
    {E : List String} :
    filter_dictionary ((k, v) :: d) E =
      if k ∈ E then filter_dictionary d E
      else (k, v) :: filter_dictionary d E := by
  by_cases h : k ∈ E <;> simp [filter_dictionary, List.filter_cons, h]

theorem roles_not_mem_keysOf_employee_attrs (e : EmployeeRec) :
    "roles" ∉ keysOf e.attrs := by
  cases h : e.id <;> simp [EmployeeRec.attrs, keysOf, idPart, h]

theorem groups_not_mem_keysOf_role_attrs (r : RoleRec) :
    "groups" ∉ keysOf r.attrs := by
  cases h : r.id <;> simp [RoleRec.attrs, keysOf, idPart, h]

/-- C1: For every App record and every caller-supplied exclusion list,
the dictionary returned by `App.get_dict` has no entry with key
`'token'`; in particular `App(name="Slack", token="secret123")`
serialized with the default exclusion is exactly `{'name': 'Slack'}`. -/
theorem app_to_dict_never_contains_token :
    (∀ (a : AppRec) (E : List String),
      getVal (a.get_dict E).1 "token" = none)
    ∧ (AppRec.get_dict ⟨"Slack", "secret123", none⟩ []).1 =
        [("name", Value.vStr "Slack")] := by
  refine ⟨fun a E => ?_, rfl⟩
  show getVal (filter_dictionary a.attrs (E ++ ["token"])) "token" = none
  exact getVal_filter_of_mem _ _ _ (by simp)

/-- C2: For every record of any of the seven record kinds and every
exclusion list E, the dictionary returned by `get_dict` has no entry
whose key is a member of E. -/
theorem to_dict_omits_excluded_keys (R : Record) (E : List String)
    (k : String) (hk : k ∈ E) : getVal (R.to_dict E) k = none := by
  cases R with
  | user u => exact getVal_filter_of_mem _ _ _ hk
  | group g => exact getVal_filter_of_mem _ _ _ hk
  | employeeToRole x => exact getVal_filter_of_mem _ _ _ hk
  | roleToGroup x => exact getVal_filter_of_mem _ _ _ hk
  | app a =>
    show getVal (filter_dictionary a.attrs (E ++ ["token"])) k = none
    exact getVal_filter_of_mem _ _ _ (List.mem_append_left _ hk)
  | employee e =>
    show getVal (e.get_dict E) k = none
    simp only [EmployeeRec.get_dict]
    by_cases hr : "roles" ∈ E
    · rw [if_neg (not_not_intro hr)]
      exact getVal_filter_of_mem _ _ _ hk
    · rw [if_pos hr]
      have hnot : "roles" ∉ keysOf (Model.get_dict e.attrs E) := fun hm =>
        roles_not_mem_keysOf_employee_attrs e (keysOf_filter_subset hm)
      rw [dictUpdate_of_not_mem hnot, getVal_eq_none_iff]
      intro p hp
      rcases List.mem_append.mp hp with hp | hp
      · rcases mem_filter_dictionary.mp hp with ⟨-, hpe⟩
        exact fun he => hpe (he ▸ hk)
      · rcases List.mem_singleton.mp hp with rfl
        intro he
        exact hr ((show ("roles" : String) = k from he).symm ▸ hk)
  | role r =>
    show getVal (r.get_dict E) k = none
    simp only [RoleRec.get_dict]
    by_cases hr : "groups" ∈ E
    · rw [if_neg (not_not_intro hr)]
      exact getVal_filter_of_mem _ _ _ hk
    · rw [if_pos hr]
      have hnot : "groups" ∉ keysOf (Model.get_dict r.attrs E) := fun hm =>
        groups_not_mem_keysOf_role_attrs r (keysOf_filter_subset hm)
      rw [dictUpdate_of_not_mem hnot, getVal_eq_none_iff]
      intro p hp
      rcases List.mem_append.mp hp with hp | hp
      · rcases mem_filter_dictionary.mp hp with ⟨-, hpe⟩
        exact fun he => hpe (he ▸ hk)
      · rcases List.mem_singleton.mp hp with rfl
        intro he
        exact hr ((show ("groups" : String) = k from he).symm ▸ hk)

theorem to_dict_omits_excluded_keys_witness :
    getVal (Record.to_dict (Record.group ⟨"g1", "ag", "a1", none⟩)
      ["name"]) "name" = none :=
  to_dict_omits_excluded_keys _ _ _ (by decide)

/-- C3: For every Employee record and exclusion list E: if `'roles'` is
not in E the result maps `'roles'` to the list of the associated roles,
each serialized by its own `get_dict` with empty exclusion; if `'roles'`
is in E the key is absent. -/
theorem employee_to_dict_roles_expansion (e : EmployeeRec)
    (E : List String) :
    ("roles" ∉ E →
      getVal (e.get_dict E) "roles" =
        some (Value.vDictList (e.roles.map (fun r => r.get_dict []))))
    ∧ ("roles" ∈ E → getVal (e.get_dict E) "roles" = none) := by
  constructor
  · intro hr
    simp only [EmployeeRec.get_dict, if_pos hr]
    have hnot : "roles" ∉ keysOf (Model.get_dict e.attrs E) := fun hm =>
      roles_not_mem_keysOf_employee_attrs e (keysOf_filter_subset hm)
    rw [dictUpdate_of_not_mem hnot]
    exact getVal_append_last hnot
  · intro hr
    simp only [EmployeeRec.get_dict, if_neg (not_not_intro hr)]
    exact getVal_filter_of_mem _ _ _ hr

theorem employee_to_dict_roles_expansion_witness :
    getVal (EmployeeRec.get_dict
        ⟨"a@x.com", "A", "B", "", none, [⟨"r1", "d1", none, []⟩]⟩ []) "roles" =
      some (Value.vDictList [RoleRec.get_dict ⟨"r1", "d1", none, []⟩ []])
    ∧ getVal (EmployeeRec.get_dict
        ⟨"a@x.com", "A", "B", "", none, [⟨"r1", "d1", none, []⟩]⟩
        ["roles"]) "roles" = none :=
  ⟨(employee_to_dict_roles_expansion _ []).1 (by decide),
   (employee_to_dict_roles_expansion _ ["roles"]).2 (by decide)⟩

/-- C4: For every Role record and exclusion list E: if `'groups'` is not
in E the result maps `'groups'` to the list of the associated groups,
each serialized by its own `get_dict` with empty exclusion; if
`'groups'` is in E the key is absent. -/
theorem role_to_dict_groups_expansion (r : RoleRec) (E : List String) :
    ("groups" ∉ E →
      getVal (r.get_dict E) "groups" =
        some (Value.vDictList (r.groups.map (fun g => g.get_dict []))))
    ∧ ("groups" ∈ E → getVal (r.get_dict E) "groups" = none) := by
  constructor
  · intro hg
    simp only [RoleRec.get_dict, if_pos hg]
    have hnot : "groups" ∉ keysOf (Model.get_dict r.attrs E) := fun hm =>
      groups_not_mem_keysOf_role_attrs r (keysOf_filter_subset hm)
    rw [dictUpdate_of_not_mem hnot]
    exact getVal_append_last hnot
  · intro hg
    simp only [RoleRec.get_dict, if_neg (not_not_intro hg)]
    exact getVal_filter_of_mem _ _ _ hg

theorem role_to_dict_groups_expansion_witness :
    getVal (RoleRec.get_dict
        ⟨"admin", "d", none, [⟨"g1", "ag", "a1", none⟩]⟩ []) "groups" =
      some (Value.vDictList [GroupRec.get_dict ⟨"g1", "ag", "a1", none⟩ []])
    ∧ getVal (RoleRec.get_dict
        ⟨"admin", "d", none, [⟨"g1", "ag", "a1", none⟩]⟩
        ["groups"]) "groups" = none :=
  ⟨(role_to_dict_groups_expansion _ []).1 (by decide),
   (role_to_dict_groups_expansion _ ["groups"]).2 (by decide)⟩

/-- C5: `App.get_dict` mutates the caller's exclusion list as a side
effect: after the call the list is the old list with `'token'` appended,
so `'token'` is a member of the caller's collection. -/
theorem app_get_dict_mutates_excludes (a : AppRec) (E : List String) :
    (a.get_dict E).2 = E ++ ["token"]
    ∧ "token" ∈ (a.get_dict E).2 := by
  refine ⟨rfl, ?_⟩
  show "token" ∈ E ++ ["token"]
  simp

/-- C6: Two successive calls to `get_dict` with a fresh empty exclusion
list and no intervening mutation return equal dictionaries, and neither
call changes the record: the operation is a pure read-projection. -/
theorem to_dict_pure_and_idempotent (R : Record) :
    (R.get_dict_st []).1 = ((R.get_dict_st []).2.get_dict_st []).1
    ∧ (R.get_dict_st []).2 = R
    ∧ ((R.get_dict_st []).2.get_dict_st []).2 = R :=
  ⟨rfl, rfl, rfl⟩

/-- C7: A freshly constructed
`Employee(email="a@x.com", first_name="A", last_name="B")` serialized
with empty exclusion yields exactly
`{'email': 'a@x.com', 'first_name': 'A', 'last_name': 'B',
'slack_id': '', 'roles': []}`, with no `'id'` entry. -/
theorem employee_fresh_scenario :
    EmployeeRec.get_dict ⟨"a@x.com", "A", "B", "", none, []⟩ [] =
      [("email", Value.vStr "a@x.com"), ("first_name", Value.vStr "A"),
       ("last_name", Value.vStr "B"), ("slack_id", Value.vStr ""),
       ("roles", Value.vDictList [])]
    ∧ getVal (EmployeeRec.get_dict ⟨"a@x.com", "A", "B", "", none, []⟩ [])
        "id" = none :=
  ⟨rfl, rfl⟩

/-- C8: For every record, exclusion list E and name `x` that is not an
attribute of the record, `get_dict` with `x` added to E returns the same
dictionary as with E alone: an unknown excluded name is silently
ignored (and the operation is total by construction). -/
theorem to_dict_ignores_unknown_exclude (R : Record) (E : List String)
    (x : String) (hx : x ∉ R.attrNames) :
    R.to_dict (x :: E) = R.to_dict E := by
  cases R with
  | user u =>
    refine filter_dictionary_congr fun p hp => ?_
    have hne : p.1 ≠ x := fun he => hx (he ▸ fst_mem_keysOf hp)
    simp [List.mem_cons, hne]
  | group g =>
    refine filter_dictionary_congr fun p hp => ?_
    have hne : p.1 ≠ x := fun he => hx (he ▸ fst_mem_keysOf hp)
    simp [List.mem_cons, hne]
  | employeeToRole y =>
    refine filter_dictionary_congr fun p hp => ?_
    have hne : p.1 ≠ x := fun he => hx (he ▸ fst_mem_keysOf hp)
    simp [List.mem_cons, hne]
  | roleToGroup y =>
    refine filter_dictionary_congr fun p hp => ?_
    have hne : p.1 ≠ x := fun he => hx (he ▸ fst_mem_keysOf hp)
    simp [List.mem_cons, hne]
  | app a =>
    show filter_dictionary a.attrs ((x :: E) ++ ["token"]) =
      filter_dictionary a.attrs (E ++ ["token"])
    refine filter_dictionary_congr fun p hp => ?_
    have hne : p.1 ≠ x := fun he => hx (he ▸ fst_mem_keysOf hp)
    simp [List.mem_append, List.mem_cons, hne]
  | employee e =>
    have hxr : x ≠ "roles" := fun he => hx (by
      simp [Record.attrNames, he])
    have hbase : Model.get_dict e.attrs (x :: E) =
        Model.get_dict e.attrs E := by
      refine filter_dictionary_congr fun p hp => ?_
      have hne : p.1 ≠ x := fun he => hx (by
        simp only [Record.attrNames, List.mem_append]
        exact Or.inl (he ▸ fst_mem_keysOf hp))
      simp [List.mem_cons, hne]
    show EmployeeRec.get_dict e (x :: E) = EmployeeRec.get_dict e E
    simp only [EmployeeRec.get_dict, hbase]
    by_cases hr : "roles" ∈ E
    · rw [if_neg (not_not_intro (List.mem_cons_of_mem _ hr)),
        if_neg (not_not_intro hr)]
    · rw [if_pos ?_, if_pos hr]
      intro hm
      rcases List.mem_cons.mp hm with he | he
      · exact hxr he.symm
      · exact hr he
  | role r =>
    have hxg : x ≠ "groups" := fun he => hx (by
      simp [Record.attrNames, he])
    have hbase : Model.get_dict r.attrs (x :: E) =
        Model.get_dict r.attrs E := by
      refine filter_dictionary_congr fun p hp => ?_
      have hne : p.1 ≠ x := fun he => hx (by
        simp only [Record.attrNames, List.mem_append]
        exact Or.inl (he ▸ fst_mem_keysOf hp))
      simp [List.mem_cons, hne]
    show RoleRec.get_dict r (x :: E) = RoleRec.get_dict r E
    simp only [RoleRec.get_dict, hbase]
    by_cases hg : "groups" ∈ E
    · rw [if_neg (not_not_intro (List.mem_cons_of_mem _ hg)),
        if_neg (not_not_intro hg)]
    · rw [if_pos ?_, if_pos hg]
      intro hm
      rcases List.mem_cons.mp hm with he | he
      · exact hxg he.symm
      · exact hg he

theorem to_dict_ignores_unknown_exclude_witness :
    Record.to_dict (Record.employee ⟨"a@x.com", "A", "B", "", none, []⟩)
        ("nonexistent" :: ["email"]) =
      Record.to_dict (Record.employee ⟨"a@x.com", "A", "B", "", none, []⟩)
        ["email"] :=
  to_dict_ignores_unknown_exclude _ _ _ (by decide)

/-- C9: The dictionary returned by `get_dict` is a new object, not an
alias of the record's attribute storage: on the heap model, the result
lives at a fresh address, and overwriting that address with any
mutated dictionary leaves the record's attribute cell unchanged. -/
theorem to_dict_result_not_aliased (heap : List PyDict) (addr : Nat)
    (E : List String) (d : PyDict) (h : addr < heap.length) :
    (get_dict_alloc heap addr E).2 ≠ addr
    ∧ (heapWrite (get_dict_alloc heap addr E).1
        (get_dict_alloc heap addr E).2 d)[addr]? = heap[addr]? := by
  refine ⟨Nat.ne_of_gt h, ?_⟩
  show ((heap ++ [filter_dictionary (heap.getD addr []) E]).set
    heap.length d)[addr]? = heap[addr]?
  rw [List.getElem?_set_ne (Nat.ne_of_gt h)]
  exact List.getElem?_append_left h

theorem to_dict_result_not_aliased_witness :
    (get_dict_alloc [[("name", Value.vStr "g1")]] 0 []).2 ≠ 0
    ∧ (heapWrite (get_dict_alloc [[("name", Value.vStr "g1")]] 0 []).1
        (get_dict_alloc [[("name", Value.vStr "g1")]] 0 []).2 [])[0]? =
      [[("name", Value.vStr "g1")]][0]? :=
  to_dict_result_not_aliased _ _ _ _ (by decide)

/-- C10: `App.get_dict` is independent of the token value: two App
records agreeing on every attribute except `token` produce equal
dictionaries for every exclusion list (two-run noninterference). -/
theorem app_to_dict_token_noninterference (a₁ a₂ : AppRec)
    (E : List String) (hname : a₁.name = a₂.name)
    (hid : a₁.id = a₂.id) :
    (a₁.get_dict E).1 = (a₂.get_dict E).1 := by
  show filter_dictionary
      (("name", Value.vStr a₁.name) :: ("token", Value.vStr a₁.token) ::
        idPart a₁.id) (E ++ ["token"]) =
    filter_dictionary
      (("name", Value.vStr a₂.name) :: ("token", Value.vStr a₂.token) ::
        idPart a₂.id) (E ++ ["token"])
  have ht : ("token" : String) ∈ E ++ ["token"] := by simp
  simp only [hname, hid, filter_dictionary_cons, if_pos ht]

theorem app_to_dict_token_noninterference_witness :
    (AppRec.get_dict ⟨"Slack", "s1", none⟩ []).1 =
      (AppRec.get_dict ⟨"Slack", "s2", none⟩ []).1 :=
  app_to_dict_token_noninterference _ _ _ rfl rfl

end GroupAssignmentTool
